import Mathlib

set_option linter.unusedVariables false

/-!
Formal model of the Ludo rules engine contained in `src/expense-tracker.py`
(the `ludo game project` half of the file).  A token's location is an
integer: `-1` is the yard sentinel, `0..51` is an absolute square on the
shared outer track, and `52..57` encodes a square of the mover's private
home stretch (`position - 52` is the stretch-relative index).
All definitions are translated directly from the Python source; rolls are
integers as produced by `random.randint(1, 6)`.
-/

def OUTER_TRACK : Int := 52

def HOME_STRETCH : Int := 6

def TOKENS_PER_PLAYER : Nat := 4

def SAFE_SQUARES : List Int := [0, 8, 13, 21, 26, 34, 39, 47]

/-- Start square of each player on the outer track (the `START_SQUARE` dict). -/
def START_SQUARE (p : Nat) : Int :=
  if p = 0 then 0
  else if p = 1 then 13
  else if p = 2 then 26
  else if p = 3 then 39
  else 0

/-- Home entry square: `(START_SQUARE[p] - 1) % OUTER_TRACK`. -/
def HOME_ENTRY (p : Nat) : Int := (START_SQUARE p - 1) % OUTER_TRACK

structure Token where
  player_idx : Nat
  token_idx : Nat
  position : Int
  finished : Bool
deriving DecidableEq

def Token.is_in_yard (t : Token) : Bool := decide (t.position = -1)

def Token.is_on_board (t : Token) : Bool := decide (0 ≤ t.position) && !t.finished

structure Player where
  idx : Nat
  tokens : List Token
  is_cpu : Bool
deriving DecidableEq

def Player.tokens_finished (p : Player) : List Token :=
  p.tokens.filter (fun t => t.finished)

def Player.all_finished (p : Player) : Bool :=
  decide (p.tokens_finished.length = TOKENS_PER_PLAYER)

/-- `Game.position_is_safe`: fixed safe squares plus the mover's own start square. -/
def position_is_safe (pos : Int) (player_idx : Option Nat) : Bool :=
  if pos < 0 ∨ OUTER_TRACK ≤ pos then false
  else if pos ∈ SAFE_SQUARES then true
  else
    match player_idx with
    | some p => decide (pos = START_SQUARE p)
    | none => false

/-- `Game.local_distance_to_home_entry`: steps left on the outer track before
the player's home entry, with circular wraparound; 0 off-track. -/
def local_distance_to_home_entry (player_idx : Nat) (pos : Int) : Int :=
  if pos < 0 ∨ OUTER_TRACK ≤ pos then 0
  else if pos ≤ HOME_ENTRY player_idx then HOME_ENTRY player_idx - pos
  else OUTER_TRACK - (pos - HOME_ENTRY player_idx)

/-- `Game.can_move_token`: legality of moving `t` by `roll` for the player. -/
def can_move_token (player_idx : Nat) (t : Token) (roll : Int) : Bool :=
  if t.finished then false
  else if t.is_in_yard then decide (roll = 6)
  else if 0 ≤ t.position ∧ t.position < OUTER_TRACK then
    let steps_to_entry := local_distance_to_home_entry player_idx t.position
    if roll ≤ steps_to_entry then true
    else decide (roll - steps_to_entry - 1 < HOME_STRETCH)
  else if OUTER_TRACK ≤ t.position then
    decide (t.position - OUTER_TRACK + roll < HOME_STRETCH)
  else false

/-- The mutation `Game.move_token` performs on the moved token itself
(the capture side effect on the other players is `handle_capture` below). -/
def move_token_self (player_idx : Nat) (t : Token) (roll : Int) : Token :=
  if t.is_in_yard then
    { t with position := START_SQUARE player_idx }
  else if 0 ≤ t.position ∧ t.position < OUTER_TRACK then
    let steps_to_entry := local_distance_to_home_entry player_idx t.position
    if roll ≤ steps_to_entry then
      { t with position := (t.position + roll) % OUTER_TRACK }
    else
      let over := roll - steps_to_entry - 1
      { t with position := OUTER_TRACK + over,
               finished :=
                 if OUTER_TRACK + over - OUTER_TRACK = HOME_STRETCH - 1 then true
                 else t.finished }
  else if OUTER_TRACK ≤ t.position then
    let rel := t.position - OUTER_TRACK
    let new_rel := rel + roll
    if new_rel = HOME_STRETCH - 1 then
      { t with position := OUTER_TRACK + new_rel, finished := true }
    else if new_rel < HOME_STRETCH - 1 then
      { t with position := OUTER_TRACK + new_rel }
    else t
  else t

/-- Body of the inner loop of `Game.handle_capture` for one opposing token. -/
def capture_token (pos : Int) (tok : Token) : Token :=
  if tok.is_on_board ∧ tok.position = pos then { tok with position := -1 } else tok

/-- `Game.handle_capture`: send every opposing on-board token on square `pos`
back to the yard, unless `pos` is off the outer track or safe for the mover. -/
def handle_capture (mover_idx : Nat) (pos : Int) (players : List Player) : List Player :=
  if pos < 0 ∨ OUTER_TRACK ≤ pos then players
  else if position_is_safe pos (some mover_idx) then players
  else
    players.map (fun pl =>
      if pl.idx = mover_idx then pl
      else { pl with tokens := pl.tokens.map (capture_token pos) })

/-- In-place mutation of one token of one player, as a functional update:
the Python code mutates the `Token` object held in `player.tokens`. -/
def set_token (players : List Player) (player_idx : Nat) (t' : Token) : List Player :=
  players.map (fun pl =>
    if pl.idx = player_idx then
      { pl with tokens := pl.tokens.map (fun t => if t.token_idx = t'.token_idx then t' else t) }
    else pl)

/-- `Game.move_token` at the level of the whole roster: move `tok` (owned by
`player_idx`) by `roll`, triggering capture on the yard-exit and on-track paths. -/
def move_token (players : List Player) (player_idx : Nat) (tok : Token) (roll : Int) :
    List Player :=
  if tok.is_in_yard then
    handle_capture player_idx (START_SQUARE player_idx)
      (set_token players player_idx { tok with position := START_SQUARE player_idx })
  else if 0 ≤ tok.position ∧ tok.position < OUTER_TRACK then
    let steps_to_entry := local_distance_to_home_entry player_idx tok.position
    if roll ≤ steps_to_entry then
      let new_pos := (tok.position + roll) % OUTER_TRACK
      handle_capture player_idx new_pos
        (set_token players player_idx { tok with position := new_pos })
    else
      let over := roll - steps_to_entry - 1
      set_token players player_idx
        { tok with position := OUTER_TRACK + over,
                   finished :=
                     if OUTER_TRACK + over - OUTER_TRACK = HOME_STRETCH - 1 then true
                     else tok.finished }
  else if OUTER_TRACK ≤ tok.position then
    let rel := tok.position - OUTER_TRACK
    let new_rel := rel + roll
    if new_rel = HOME_STRETCH - 1 then
      set_token players player_idx { tok with position := OUTER_TRACK + new_rel, finished := true }
    else if new_rel < HOME_STRETCH - 1 then
      set_token players player_idx { tok with position := OUTER_TRACK + new_rel }
    else players
  else players

/-- `Game.any_moves_available`. -/
def any_moves_available (player : Player) (roll : Int) : Bool :=
  player.tokens.any (fun t => can_move_token player.idx t roll)

/-- Destination preview used by priority 2 of the CPU branch of
`Game.select_token_for_move`. -/
def dest_of (player_idx : Nat) (t : Token) (roll : Int) : Int :=
  if t.is_in_yard then START_SQUARE player_idx
  else if 0 ≤ t.position ∧ t.position < OUTER_TRACK then
    let steps_to_entry := local_distance_to_home_entry player_idx t.position
    if roll ≤ steps_to_entry then (t.position + roll) % OUTER_TRACK
    else OUTER_TRACK + (roll - steps_to_entry - 1)
  else t.position + roll

/-- Inner double loop of priority 2: is any opposing on-board token at `pos`? -/
def opponent_token_at (players : List Player) (mover_idx : Nat) (pos : Int) : Bool :=
  players.any (fun pl =>
    decide (pl.idx ≠ mover_idx) &&
      pl.tokens.any (fun tok => tok.is_on_board && decide (tok.position = pos)))

/-- Sort key of priority 4: `x.position if x.position >= 0 else -1`. -/
def progress_key (t : Token) : Int := if 0 ≤ t.position then t.position else -1

/-- First element with the maximal `progress_key`: the semantics of
`movable.sort(key=..., reverse=True); return movable[0]` (Python sort is stable). -/
def pick_most_progressed : List Token → Option Token
  | [] => none
  | t :: ts =>
    match pick_most_progressed ts with
    | none => some t
    | some b => if progress_key t < progress_key b then some b else some t

/-- CPU branch of `Game.select_token_for_move`: the four-priority heuristic
(finishing within the stretch, capture, leave yard, most progressed). -/
def select_token_for_move_cpu (players : List Player) (player : Player) (roll : Int) :
    Option Token :=
  let movable := player.tokens.filter (fun t => can_move_token player.idx t roll)
  if movable.isEmpty then none
  else
    match movable.find? (fun t =>
        decide (OUTER_TRACK ≤ t.position) &&
          decide (t.position - OUTER_TRACK + roll = HOME_STRETCH - 1)) with
    | some t => some t
    | none =>
      match movable.find? (fun t =>
          let dest := dest_of player.idx t roll
          decide (dest < OUTER_TRACK) && !position_is_safe dest (some player.idx) &&
            opponent_token_at players player.idx dest) with
      | some t => some t
      | none =>
        match movable.find? (fun t => t.is_in_yard) with
        | some t => some t
        | none => pick_most_progressed movable

structure GameState where
  players : List Player
  num_players : Nat
  turn : Nat
  winner_order : List Nat
deriving DecidableEq

/-- One iteration of the `while` loop of `Game.play`.  The die roll and the
token returned by `select_token_for_move` (with `none` = pass) are inputs,
since the former is random and the latter may come from a human. -/
def play_step (gs : GameState) (roll : Int) (choice : Option Token) : GameState :=
  match gs.players.get? gs.turn with
  | none => gs
  | some player =>
    if player.all_finished then
      { gs with
        winner_order :=
          if player.idx ∈ gs.winner_order then gs.winner_order
          else gs.winner_order ++ [player.idx],
        turn := (gs.turn + 1) % gs.num_players }
    else if !any_moves_available player roll then
      if roll = 6 then gs
      else { gs with turn := (gs.turn + 1) % gs.num_players }
    else
      match choice with
      | none => { gs with turn := (gs.turn + 1) % gs.num_players }
      | some tok =>
        let players' := move_token gs.players player.idx tok roll
        let player' := (players'.get? gs.turn).getD player
        let wo' :=
          if player'.all_finished ∧ player'.idx ∉ gs.winner_order
          then gs.winner_order ++ [player'.idx] else gs.winner_order
        if roll = 6 then { gs with players := players', winner_order := wo' }
        else { gs with players := players', winner_order := wo',
                       turn := (gs.turn + 1) % gs.num_players }

/-- The `while len(self.winner_order) < self.num_players - 1` loop of
`Game.play`, driven by a list of per-iteration inputs (roll, choice). -/
def play_loop : GameState → List (Int × Option Token) → GameState
  | gs, [] => gs
  | gs, (r, c) :: rest =>
    if gs.winner_order.length < gs.num_players - 1 then play_loop (play_step gs r c) rest
    else gs

/-- The final loop of `Game.play`: append every player not yet ranked, in
roster order. -/
def finish_game (gs : GameState) : GameState :=
  { gs with winner_order :=
      gs.winner_order ++ (gs.players.map Player.idx).filter (fun i => decide (i ∉ gs.winner_order)) }

/-- `Game.play`: the turn loop followed by the final append of unranked players. -/
def play (gs : GameState) (inputs : List (Int × Option Token)) : GameState :=
  finish_game (play_loop gs inputs)

/-- The per-token data invariant of the spec (section 3, Token). -/
def token_inv (t : Token) : Prop :=
  -1 ≤ t.position ∧ t.position < OUTER_TRACK + HOME_STRETCH ∧
    (t.finished = true → t.position = OUTER_TRACK + HOME_STRETCH - 1) ∧
    (t.position = -1 → t.finished = false)

/-- The spec's three-case legality predicate `canAdvance` (section 4.1),
stated from the spec's words, for comparison with `can_move_token`:
yard is legal only on a 6; the shared track is legal when the roll stays on
the track or overshoots into the stretch by less than `STRETCH_LENGTH`;
the private stretch is legal when the landing index stays below
`STRETCH_LENGTH`; finished tokens are never legal. -/
def canAdvance_spec (player_idx : Nat) (t : Token) (roll : Int) : Bool :=
  if t.finished then false
  else if t.position = -1 then decide (roll = 6)
  else if 0 ≤ t.position ∧ t.position < OUTER_TRACK then
    let d := local_distance_to_home_entry player_idx t.position
    decide (roll ≤ d ∨ roll - d - 1 < HOME_STRETCH)
  else decide (t.position - OUTER_TRACK + roll < HOME_STRETCH)

/-- Repeated application of `move_token_self` under the legality check of
`can_move_token`; `none` when any move of the sequence is illegal. -/
def apply_legal_moves (player_idx : Nat) : Token → List Int → Option Token
  | t, [] => some t
  | t, r :: rs =>
    if can_move_token player_idx t r then
      apply_legal_moves player_idx (move_token_self player_idx t r) rs
    else none

/-- Well-formedness of an engine state as built by `Game.__init__` and
maintained by `Game.play`. -/
def gs_valid (gs : GameState) : Prop :=
  gs.players.map Player.idx = List.range gs.num_players ∧
    gs.winner_order.Nodup ∧
    (∀ i ∈ gs.winner_order, i < gs.num_players) ∧
    gs.turn < gs.num_players ∧
    2 ≤ gs.num_players

instance (t : Token) : Decidable (token_inv t) := by
  unfold token_inv
  infer_instance

instance (gs : GameState) : Decidable (gs_valid gs) := by
  unfold gs_valid
  infer_instance

/-! ## Helper lemmas -/

lemma start_square_range (p : Nat) : 0 ≤ START_SQUARE p ∧ START_SQUARE p < OUTER_TRACK := by
  unfold START_SQUARE OUTER_TRACK
  split_ifs <;> omega

lemma start_square_mem_safe (p : Nat) (hp : p < 4) : START_SQUARE p ∈ SAFE_SQUARES := by
  interval_cases p <;> simp [START_SQUARE, SAFE_SQUARES]

lemma home_entry_range (p : Nat) : 0 ≤ HOME_ENTRY p ∧ HOME_ENTRY p < OUTER_TRACK := by
  unfold HOME_ENTRY
  constructor
  · exact Int.emod_nonneg _ (by unfold OUTER_TRACK; omega)
  · exact Int.emod_lt_of_pos _ (by unfold OUTER_TRACK; omega)

lemma local_distance_range (p : Nat) (pos : Int) :
    0 ≤ local_distance_to_home_entry p pos ∧ local_distance_to_home_entry p pos < OUTER_TRACK := by
  have h := home_entry_range p
  unfold local_distance_to_home_entry
  split_ifs <;> unfold OUTER_TRACK at * <;> omega

lemma position_is_safe_true_of (p : Nat) (pos : Int)
    (hrange : 0 ≤ pos ∧ pos < OUTER_TRACK)
    (h : pos ∈ SAFE_SQUARES ∨ pos = START_SQUARE p) :
    position_is_safe pos (some p) = true := by
  unfold position_is_safe
  split_ifs with h1 h2
  · omega
  · rfl
  · rcases h with h | h
    · exact absurd h h2
    · simp [h]

lemma handle_capture_eq_of_safe (p : Nat) (pos : Int) (players : List Player)
    (h : position_is_safe pos (some p) = true) :
    handle_capture p pos players = players := by
  unfold handle_capture
  split_ifs with h1
  · rfl
  · rfl

/-! ## C6 -/

/-- C6: `Game.local_distance_to_home_entry(p, pos)` returns `entry - pos` for an
on-track `pos` at or before the entry `(start(p) - 1) mod TRACK_LENGTH`, wraps
circularly to `TRACK_LENGTH - (pos - entry)` (never a negative linear
difference) when `pos` is numerically past the entry, and returns 0 off-track. -/
theorem c6_distance_to_entry (p : Nat) (pos : Int) (hp : p < 4) :
    ((0 ≤ pos ∧ pos < OUTER_TRACK) →
      (pos ≤ (START_SQUARE p - 1) % OUTER_TRACK →
        local_distance_to_home_entry p pos = (START_SQUARE p - 1) % OUTER_TRACK - pos) ∧
      ((START_SQUARE p - 1) % OUTER_TRACK < pos →
        local_distance_to_home_entry p pos
          = OUTER_TRACK - (pos - (START_SQUARE p - 1) % OUTER_TRACK)) ∧
      0 ≤ local_distance_to_home_entry p pos) ∧
    ((pos < 0 ∨ OUTER_TRACK ≤ pos) → local_distance_to_home_entry p pos = 0) := by
  have hd := local_distance_range p pos
  have he : HOME_ENTRY p = (START_SQUARE p - 1) % OUTER_TRACK := rfl
  constructor
  · rintro ⟨ha, hb⟩
    refine ⟨fun hle => ?_, fun hgt => ?_, hd.1⟩ <;>
      · unfold local_distance_to_home_entry
        rw [← he] at *
        split_ifs <;> omega
  · intro h
    unfold local_distance_to_home_entry
    split_ifs <;> omega

/-- Witness for C6 at `p = 0`, `pos = 10`. -/
theorem c6_distance_to_entry_witness :
    (0 : Nat) < 4 ∧
      (((0:Int) ≤ 10 ∧ (10:Int) < OUTER_TRACK) →
        ((10:Int) ≤ (START_SQUARE 0 - 1) % OUTER_TRACK →
          local_distance_to_home_entry 0 10 = (START_SQUARE 0 - 1) % OUTER_TRACK - 10) ∧
        ((START_SQUARE 0 - 1) % OUTER_TRACK < 10 →
          local_distance_to_home_entry 0 10
            = OUTER_TRACK - (10 - (START_SQUARE 0 - 1) % OUTER_TRACK)) ∧
        0 ≤ local_distance_to_home_entry 0 10) ∧
      (((10:Int) < 0 ∨ OUTER_TRACK ≤ 10) → local_distance_to_home_entry 0 10 = 0) :=
  ⟨by decide, c6_distance_to_entry 0 10 (by decide)⟩

/-! ## C4 -/

/-- C4: no capture happens when the landing square is one of the 8 fixed safe
squares or the mover's own start square: `handle_capture` leaves every player
(and so every opposing token) unchanged. -/
theorem c4_no_capture_on_safe (p : Nat) (pos : Int) (players : List Player)
    (hp : p < 4) (hsafe : pos ∈ SAFE_SQUARES ∨ pos = START_SQUARE p) :
    handle_capture p pos players = players := by
  have hrange : 0 ≤ pos ∧ pos < OUTER_TRACK := by
    rcases hsafe with h | h
    · unfold OUTER_TRACK
      simp [SAFE_SQUARES] at h
      omega
    · rw [h]
      exact start_square_range p
  exact handle_capture_eq_of_safe p pos players (position_is_safe_true_of p pos hrange hsafe)

/-- Witness for C4 at `pos = 8` (a fixed safe square) with one opposing token there. -/
theorem c4_no_capture_on_safe_witness :
    ((8:Int) ∈ SAFE_SQUARES ∨ (8:Int) = START_SQUARE 0) ∧
      handle_capture 0 8 [⟨1, [⟨1, 0, 8, false⟩], false⟩] = [⟨1, [⟨1, 0, 8, false⟩], false⟩] :=
  ⟨by decide, c4_no_capture_on_safe 0 8 _ (by decide) (by decide)⟩

/-! ## C10 -/

/-- C10: for every player the own-start clause of `position_is_safe` is
redundant — each start square (0, 13, 26, 39) is one of the 8 globally safe
squares, so `position_is_safe pos (some p) = position_is_safe pos none`;
consequently a token moved out of the yard (which lands on its owner's start
square) triggers no capture: `move_token` only rewrites the mover's token. -/
theorem c10_start_squares_safe (p : Nat) (pos : Int) (players : List Player)
    (tok : Token) (roll : Int) (hp : p < 4) :
    position_is_safe pos (some p) = position_is_safe pos none ∧
      handle_capture p (START_SQUARE p) players = players ∧
      (tok.is_in_yard = true →
        move_token players p tok roll
          = set_token players p { tok with position := START_SQUARE p }) := by
  have hmem := start_square_mem_safe p hp
  have hrange := start_square_range p
  have hcap : handle_capture p (START_SQUARE p) players = players :=
    handle_capture_eq_of_safe p (START_SQUARE p) players
      (position_is_safe_true_of p (START_SQUARE p) hrange (Or.inl hmem))
  refine ⟨?_, hcap, ?_⟩
  · unfold position_is_safe
    split_ifs with h1 h2
    · rfl
    · rfl
    · show decide (pos = START_SQUARE p) = false
      simp only [decide_eq_false_iff_not]
      intro hEq
      rw [hEq] at h2
      exact h2 hmem
  · intro hyard
    unfold move_token
    rw [if_pos hyard]
    exact handle_capture_eq_of_safe p (START_SQUARE p) _
      (position_is_safe_true_of p (START_SQUARE p) hrange (Or.inl hmem))

/-- Witness for C10 at `p = 2`, `pos = 26`, with an opposing token sitting on
player 2's start square and a yard token coming out. -/
theorem c10_start_squares_safe_witness :
    (2 : Nat) < 4 ∧
      ((⟨2, 0, -1, false⟩ : Token).is_in_yard = true →
        move_token [⟨0, [⟨0, 0, 26, false⟩], false⟩] 2 ⟨2, 0, -1, false⟩ 6
          = set_token [⟨0, [⟨0, 0, 26, false⟩], false⟩] 2 ⟨2, 0, 26, false⟩) :=
  ⟨by decide, ((c10_start_squares_safe 2 26 [⟨0, [⟨0, 0, 26, false⟩], false⟩]
      ⟨2, 0, -1, false⟩ 6 (by decide)).2.2)⟩

/-! ## C5 -/

/-- C5: `Game.can_move_token` coincides with the spec's three-case legality
predicate `canAdvance` for every player, every well-formed token and every
roll in 1..6: finished never legal, yard legal iff the roll is 6, track legal
iff the roll stays on the track or overshoots into the stretch by fewer than
`STRETCH_LENGTH` squares, stretch legal iff the landing index stays below
`STRETCH_LENGTH` (overshoot illegal, never clamped). -/
theorem c5_can_move_matches_spec (p : Nat) (t : Token) (roll : Int)
    (hp : p < 4) (hinv : token_inv t) (h1 : 1 ≤ roll) (h6 : roll ≤ 6) :
    can_move_token p t roll = canAdvance_spec p t roll := by
  obtain ⟨hlo, hhi, hfin, hyard⟩ := hinv
  unfold can_move_token canAdvance_spec Token.is_in_yard
  simp only [decide_eq_true_eq]
  split_ifs with a b c d e
  · rfl
  · rfl
  · exact (decide_eq_true (Or.inl d)).symm
  · rw [decide_eq_decide]
    exact ⟨Or.inr, fun h => h.resolve_left d⟩
  · rfl
  · exfalso
    unfold OUTER_TRACK at *
    omega

/-- Witness for C5: player 0, an on-track token at square 49, roll 4
(enters the stretch). -/
theorem c5_can_move_matches_spec_witness :
    (0 : Nat) < 4 ∧ token_inv ⟨0, 0, 49, false⟩ ∧ (1:Int) ≤ 4 ∧ (4:Int) ≤ 6 ∧
      can_move_token 0 ⟨0, 0, 49, false⟩ 4 = canAdvance_spec 0 ⟨0, 0, 49, false⟩ 4 :=
  ⟨by decide, by decide, by decide, by decide,
    c5_can_move_matches_spec 0 ⟨0, 0, 49, false⟩ 4 (by decide) (by decide)
      (by decide) (by decide)⟩

/-! ## Token invariant lemmas (shared by C7 and C9) -/

lemma move_token_self_finished_id (p : Nat) (t : Token) (roll : Int)
    (hf : t.finished = true) (hinv : token_inv t) (h1 : 1 ≤ roll) :
    move_token_self p t roll = t := by
  obtain ⟨hlo, hhi, hfin, hyard⟩ := hinv
  have hpos := hfin hf
  simp only [OUTER_TRACK, HOME_STRETCH] at hpos hhi
  simp only [move_token_self, Token.is_in_yard, OUTER_TRACK, HOME_STRETCH]
  split_ifs with a b c d e <;>
    first
      | rfl
      | (exfalso
         simp only [decide_eq_true_eq] at a
         omega)

lemma move_token_self_inv_core (p : Nat) (t : Token) (roll : Int)
    (h1 : 1 ≤ roll) (h6 : roll ≤ 6) (hinv : token_inv t) :
    token_inv (move_token_self p t roll) ∧
      (t.finished = true → (move_token_self p t roll).finished = true) := by
  cases hf : t.finished with
  | true =>
    rw [move_token_self_finished_id p t roll hf hinv h1]
    exact ⟨hinv, fun _ => hf⟩
  | false =>
    obtain ⟨hlo, hhi, hfin, hyard⟩ := hinv
    have hd := local_distance_range p t.position
    have hs := start_square_range p
    have hm1 : 0 ≤ (t.position + roll) % OUTER_TRACK :=
      Int.emod_nonneg _ (by simp only [OUTER_TRACK]; omega)
    have hm2 : (t.position + roll) % OUTER_TRACK < OUTER_TRACK :=
      Int.emod_lt_of_pos _ (by simp only [OUTER_TRACK]; omega)
    simp only [OUTER_TRACK, HOME_STRETCH] at hd hs hm1 hm2 hhi
    refine ⟨?_, by simp [hf]⟩
    unfold token_inv
    simp only [move_token_self, Token.is_in_yard, OUTER_TRACK, HOME_STRETCH, hf]
    split_ifs with a b c d e f g <;>
      refine ⟨?_, ?_, ?_, ?_⟩ <;>
        intros <;>
          first
            | omega
            | rfl
            | (simp_all only [decide_eq_true_eq]
               omega)
            | (simp_all <;> omega)

lemma move_token_self_legal_step (p : Nat) (t : Token) (roll : Int)
    (h1 : 1 ≤ roll) (h6 : roll ≤ 6) (hinv : token_inv t)
    (hleg : can_move_token p t roll = true) :
    token_inv (move_token_self p t roll) ∧
      ((move_token_self p t roll).finished = true ↔
        (move_token_self p t roll).position = OUTER_TRACK + HOME_STRETCH - 1) := by
  have hf : t.finished = false := by
    by_contra h
    rw [Bool.not_eq_false] at h
    simp [can_move_token, h] at hleg
  refine ⟨(move_token_self_inv_core p t roll h1 h6 hinv).1, ?_⟩
  obtain ⟨hlo, hhi, hfin, hyard⟩ := hinv
  have hd := local_distance_range p t.position
  have hs := start_square_range p
  have hm1 : 0 ≤ (t.position + roll) % OUTER_TRACK :=
    Int.emod_nonneg _ (by simp only [OUTER_TRACK]; omega)
  have hm2 : (t.position + roll) % OUTER_TRACK < OUTER_TRACK :=
    Int.emod_lt_of_pos _ (by simp only [OUTER_TRACK]; omega)
  simp only [OUTER_TRACK, HOME_STRETCH] at hd hs hm1 hm2 hhi
  simp only [can_move_token, Token.is_in_yard, hf, OUTER_TRACK, HOME_STRETCH,
    Bool.if_false_left] at hleg
  simp only [move_token_self, Token.is_in_yard, OUTER_TRACK, HOME_STRETCH, hf]
  split_ifs at hleg ⊢ with a b c d e f <;>
    first
      | omega
      | (exfalso
         omega)
      | (exfalso
         simp only [decide_eq_true_eq] at hleg
         omega)
      | (simp_all only [decide_eq_true_eq]
         omega)
      | (constructor <;> intro h <;> simp_all only [decide_eq_true_eq] <;> omega)
      | (simp_all <;> omega)

lemma apply_legal_moves_inv (p : Nat) (rolls : List Int) :
    ∀ t t' : Token, token_inv t → (∀ r ∈ rolls, 1 ≤ r ∧ r ≤ 6) →
      apply_legal_moves p t rolls = some t' →
      token_inv t' ∧
        (rolls ≠ [] →
          ((t'.finished = true) ↔ t'.position = OUTER_TRACK + HOME_STRETCH - 1)) := by
  induction rolls with
  | nil =>
    intro t t' hinv hr happ
    simp only [apply_legal_moves, Option.some.injEq] at happ
    subst happ
    exact ⟨hinv, fun h => absurd rfl h⟩
  | cons r rs ih =>
    intro t t' hinv hr happ
    simp only [apply_legal_moves] at happ
    split_ifs at happ with hleg
    have hb := hr r (List.mem_cons_self r rs)
    have hstep := move_token_self_legal_step p t r hb.1 hb.2 hinv hleg
    cases rs with
    | nil =>
      simp only [apply_legal_moves, Option.some.injEq] at happ
      subst happ
      exact ⟨hstep.1, fun _ => hstep.2⟩
    | cons r2 rs2 =>
      have hrec := ih (move_token_self p t r) t' hstep.1
        (fun x hx => hr x (List.mem_cons_of_mem r hx)) happ
      exact ⟨hrec.1, fun _ => hrec.2 (by simp)⟩

/-! ## C9 -/

/-- C9: both engine operations preserve the token invariant: `move_token_self`
(the token mutation of `Game.move_token`) and `capture_token` (the reset of
`Game.handle_capture`) keep `finished` monotonic, keep
`finished → coordinate = TRACK_LENGTH + STRETCH_LENGTH - 1`, keep
`coordinate = -1 → not finished`, and never touch a finished token during
capture (a finished token is never captured). -/
theorem c9_token_inv_preserved (p : Nat) (t : Token) (roll : Int) (pos : Int)
    (hp : p < 4) (h1 : 1 ≤ roll) (h6 : roll ≤ 6) (hinv : token_inv t) :
    token_inv (move_token_self p t roll) ∧
      (t.finished = true → (move_token_self p t roll).finished = true) ∧
      token_inv (capture_token pos t) ∧
      (t.finished = true → (capture_token pos t).finished = true) ∧
      (t.finished = true → capture_token pos t = t) := by
  obtain ⟨hmv1, hmv2⟩ := move_token_self_inv_core p t roll h1 h6 hinv
  have hcapid : t.finished = true → capture_token pos t = t := by
    intro hf
    simp [capture_token, Token.is_on_board, hf]
  have hcapinv : token_inv (capture_token pos t) := by
    obtain ⟨hlo, hhi, hfin, hyard⟩ := hinv
    simp only [OUTER_TRACK, HOME_STRETCH] at hhi hfin
    unfold token_inv capture_token Token.is_on_board
    simp only [OUTER_TRACK, HOME_STRETCH]
    split_ifs with a <;>
      refine ⟨?_, ?_, ?_, ?_⟩ <;>
        intros <;>
          first
            | omega
            | rfl
            | (simp_all only [decide_eq_true_eq, Bool.and_eq_true, Bool.not_eq_true']
               omega)
            | (simp_all <;> omega)
  refine ⟨hmv1, hmv2, hcapinv, fun hf => ?_, hcapid⟩
  rw [hcapid hf]
  exact hf

/-- Witness for C9: player 1, an on-track token at square 20, roll 3,
capture checked against square 20. -/
theorem c9_token_inv_preserved_witness :
    (1 : Nat) < 4 ∧ (1:Int) ≤ 3 ∧ (3:Int) ≤ 6 ∧ token_inv ⟨1, 0, 20, false⟩ ∧
      (token_inv (move_token_self 1 ⟨1, 0, 20, false⟩ 3) ∧
        ((⟨1, 0, 20, false⟩ : Token).finished = true →
          (move_token_self 1 ⟨1, 0, 20, false⟩ 3).finished = true) ∧
        token_inv (capture_token 20 ⟨1, 0, 20, false⟩) ∧
        ((⟨1, 0, 20, false⟩ : Token).finished = true →
          (capture_token 20 ⟨1, 0, 20, false⟩).finished = true) ∧
        ((⟨1, 0, 20, false⟩ : Token).finished = true →
          capture_token 20 ⟨1, 0, 20, false⟩ = ⟨1, 0, 20, false⟩)) :=
  ⟨by decide, by decide, by decide, by decide,
    c9_token_inv_preserved 1 ⟨1, 0, 20, false⟩ 3 20 (by decide) (by decide)
      (by decide) (by decide)⟩

/-! ## C7 -/

/-- C7: along any sequence of legal moves (each allowed by `can_move_token`
and applied by the token mutation of `Game.move_token`), a token's `finished`
flag is true exactly when the landing coordinate is the final stretch index
`TRACK_LENGTH + STRETCH_LENGTH - 1`; landing anywhere else (in particular one
step short) leaves it false, the position never passes the final index, and
the token invariant is preserved. -/
theorem c7_finish_exactly_on_last (p : Nat) (t t' : Token) (rolls : List Int)
    (hp : p < 4) (hinv : token_inv t)
    (hr : ∀ r ∈ rolls, 1 ≤ r ∧ r ≤ 6) (hne : rolls ≠ [])
    (happ : apply_legal_moves p t rolls = some t') :
    ((t'.finished = true) ↔ t'.position = OUTER_TRACK + HOME_STRETCH - 1) ∧
      t'.position ≤ OUTER_TRACK + HOME_STRETCH - 1 ∧ token_inv t' := by
  have h := apply_legal_moves_inv p rolls t t' hinv hr happ
  refine ⟨h.2 hne, ?_, h.1⟩
  have hb := h.1.2.1
  simp only [OUTER_TRACK, HOME_STRETCH] at hb ⊢
  omega

/-- Witness for C7: a stretch token at relative index 3 moved by 2 lands on
the final index 57 and is finished. -/
theorem c7_finish_exactly_on_last_witness :
    (0 : Nat) < 4 ∧ token_inv ⟨0, 0, 55, false⟩ ∧
      (∀ r ∈ ([2] : List Int), 1 ≤ r ∧ r ≤ 6) ∧ ([2] : List Int) ≠ [] ∧
      apply_legal_moves 0 ⟨0, 0, 55, false⟩ [2] = some ⟨0, 0, 57, true⟩ ∧
      ((((⟨0, 0, 57, true⟩ : Token).finished = true) ↔
          (⟨0, 0, 57, true⟩ : Token).position = OUTER_TRACK + HOME_STRETCH - 1) ∧
        (⟨0, 0, 57, true⟩ : Token).position ≤ OUTER_TRACK + HOME_STRETCH - 1 ∧
        token_inv ⟨0, 0, 57, true⟩) :=
  ⟨by decide, by decide, by decide, by decide, by decide,
    c7_finish_exactly_on_last 0 ⟨0, 0, 55, false⟩ ⟨0, 0, 57, true⟩ [2] (by decide)
      (by decide) (by decide) (by decide) (by decide)⟩

/-! ## C3 -/

/-- C3: a move applied by `Game.move_token` that stays on the shared track and
lands on a square that is not safe for the mover maps every other player's
token list through `capture_token`: every opposing unfinished token at exactly
the landing square is reset to the yard sentinel `-1` with its `finished` flag
unchanged (all co-located opposing tokens alike), while opposing tokens in the
yard or in their private stretch are untouched, and the mover's own player
entry is untouched by the capture pass. -/
theorem c3_capture_on_unsafe_landing (players : List Player) (mover : Nat) (tok : Token)
    (roll : Int) (pos' : Int)
    (htrack : 0 ≤ tok.position ∧ tok.position < OUTER_TRACK)
    (hstay : roll ≤ local_distance_to_home_entry mover tok.position)
    (hland : pos' = (tok.position + roll) % OUTER_TRACK)
    (hnosafe : position_is_safe pos' (some mover) = false) :
    move_token players mover tok roll
        = (set_token players mover { tok with position := pos' }).map
            (fun pl =>
              if pl.idx = mover then pl
              else { pl with tokens := pl.tokens.map (capture_token pos') }) ∧
      (∀ tk : Token, 0 ≤ tk.position → tk.finished = false → tk.position = pos' →
        capture_token pos' tk = { tk with position := -1 } ∧
          (capture_token pos' tk).finished = tk.finished) ∧
      (∀ tk : Token, (capture_token pos' tk).finished = tk.finished) ∧
      (∀ tk : Token, tk.position = -1 ∨ OUTER_TRACK ≤ tk.position →
        capture_token pos' tk = tk) := by
  have hm1 : 0 ≤ (tok.position + roll) % OUTER_TRACK :=
    Int.emod_nonneg _ (by simp only [OUTER_TRACK]; omega)
  have hm2 : (tok.position + roll) % OUTER_TRACK < OUTER_TRACK :=
    Int.emod_lt_of_pos _ (by simp only [OUTER_TRACK]; omega)
  rw [hland] at hnosafe ⊢
  refine ⟨?_, ?_, ?_, ?_⟩
  · simp only [move_token, Token.is_in_yard]
    rw [if_neg (by simp only [decide_eq_true_eq]; omega), if_pos htrack, if_pos hstay]
    unfold handle_capture
    rw [if_neg (by omega), if_neg (by simp [hnosafe])]
  · intro tk h0 hfin hpos
    constructor
    · unfold capture_token
      rw [if_pos ⟨by simp [Token.is_on_board, h0, hfin], hpos⟩]
    · unfold capture_token
      split_ifs with h
      · rfl
      · rfl
  · intro tk
    unfold capture_token
    split_ifs with h
    · rfl
    · rfl
  · intro tk hoff
    unfold capture_token
    rw [if_neg]
    rintro ⟨hb, hpos⟩
    simp only [Token.is_on_board, Bool.and_eq_true, decide_eq_true_eq] at hb
    rcases hoff with h | h <;> simp only [OUTER_TRACK] at * <;> omega

/-- Witness for C3: player 0 moves a token from square 10 by 6 to the unsafe
square 16 occupied by two tokens of player 1. -/
theorem c3_capture_on_unsafe_landing_witness :
    ((0:Int) ≤ (10:Int) ∧ (10:Int) < OUTER_TRACK) ∧
      (6:Int) ≤ local_distance_to_home_entry 0 10 ∧
      (16:Int) = ((10:Int) + 6) % OUTER_TRACK ∧
      position_is_safe 16 (some 0) = false ∧
      move_token
          [⟨0, [⟨0, 0, 10, false⟩], false⟩,
           ⟨1, [⟨1, 0, 16, false⟩, ⟨1, 1, 16, false⟩, ⟨1, 2, -1, false⟩], false⟩]
          0 ⟨0, 0, 10, false⟩ 6
        = [⟨0, [⟨0, 0, 16, false⟩], false⟩,
           ⟨1, [⟨1, 0, -1, false⟩, ⟨1, 1, -1, false⟩, ⟨1, 2, -1, false⟩], false⟩] := by
  refine ⟨by decide, by decide, by decide, by decide, ?_⟩
  rw [(c3_capture_on_unsafe_landing
    [⟨0, [⟨0, 0, 10, false⟩], false⟩,
     ⟨1, [⟨1, 0, 16, false⟩, ⟨1, 1, 16, false⟩, ⟨1, 2, -1, false⟩], false⟩]
    0 ⟨0, 0, 10, false⟩ 6 16 (by decide) (by decide) (by decide) (by decide)).1]
  decide

/-! ## C2 -/

/-- C2 counterexample: for CPU player 0 with token 0 on square 51 (whose move
by 6 enters the stretch exactly on the final index and finishes it, and which
is legal) and token 1 on square 10 (whose move captures on square 16), the
heuristic returns the capturing token 1 — a non-finishing move — although the
legal set contains a finishing move from the shared track. -/
theorem c2_counterexample :
    can_move_token 0 ⟨0, 0, 51, false⟩ 6 = true ∧
      (move_token_self 0 ⟨0, 0, 51, false⟩ 6).finished = true ∧
      select_token_for_move_cpu
          [⟨0, [⟨0, 0, 51, false⟩, ⟨0, 1, 10, false⟩, ⟨0, 2, -1, false⟩, ⟨0, 3, -1, false⟩], true⟩,
           ⟨1, [⟨1, 0, 16, false⟩, ⟨1, 1, -1, false⟩, ⟨1, 2, -1, false⟩, ⟨1, 3, -1, false⟩], false⟩]
          ⟨0, [⟨0, 0, 51, false⟩, ⟨0, 1, 10, false⟩, ⟨0, 2, -1, false⟩, ⟨0, 3, -1, false⟩], true⟩
          6
        = some ⟨0, 1, 10, false⟩ ∧
      (move_token_self 0 ⟨0, 1, 10, false⟩ 6).finished = false := by
  decide

/-- C2 amended: the finishing priority of the CPU heuristic covers only tokens
already inside the private stretch: whenever the legal set contains a stretch
token whose move lands exactly on the final stretch index, the heuristic
returns such a token (before any capturing choice).  A finishing move entering
the stretch from the shared track is not covered by this priority. -/
theorem c2_select_finishing (players : List Player) (player : Player) (roll : Int)
    (t : Token) (ht : t ∈ player.tokens)
    (hleg : can_move_token player.idx t roll = true)
    (hfin : OUTER_TRACK ≤ t.position ∧ t.position - OUTER_TRACK + roll = HOME_STRETCH - 1) :
    ∃ t', select_token_for_move_cpu players player roll = some t' ∧
      OUTER_TRACK ≤ t'.position ∧ t'.position - OUTER_TRACK + roll = HOME_STRETCH - 1 := by
  have htm : t ∈ player.tokens.filter (fun x => can_move_token player.idx x roll) :=
    List.mem_filter.mpr ⟨ht, hleg⟩
  unfold select_token_for_move_cpu
  have hne : (player.tokens.filter (fun x => can_move_token player.idx x roll)).isEmpty
      = false := by
    cases hcase : player.tokens.filter (fun x => can_move_token player.idx x roll) with
    | nil =>
      rw [hcase] at htm
      cases htm
    | cons a as => rfl
  rw [if_neg (by simp [hne])]
  have hsome : ((player.tokens.filter (fun x => can_move_token player.idx x roll)).find?
      (fun x => decide (OUTER_TRACK ≤ x.position) &&
        decide (x.position - OUTER_TRACK + roll = HOME_STRETCH - 1))).isSome = true := by
    rw [List.find?_isSome]
    exact ⟨t, htm, by simp [hfin.1, hfin.2]⟩
  obtain ⟨u, hu⟩ := Option.isSome_iff_exists.mp hsome
  have hup := List.find?_some hu
  simp only [Bool.and_eq_true, decide_eq_true_eq] at hup
  rw [hu]
  exact ⟨u, rfl, hup.1, hup.2⟩

/-- Witness for the amended C2: a lone CPU stretch token at relative index 3
with roll 2 is selected as the finishing move. -/
theorem c2_select_finishing_witness :
    (⟨0, 0, 55, false⟩ : Token) ∈ (⟨0, [⟨0, 0, 55, false⟩], true⟩ : Player).tokens ∧
      can_move_token (⟨0, [⟨0, 0, 55, false⟩], true⟩ : Player).idx ⟨0, 0, 55, false⟩ 2 = true ∧
      (OUTER_TRACK ≤ (⟨0, 0, 55, false⟩ : Token).position ∧
        (⟨0, 0, 55, false⟩ : Token).position - OUTER_TRACK + 2 = HOME_STRETCH - 1) ∧
      (∃ t', select_token_for_move_cpu [⟨0, [⟨0, 0, 55, false⟩], true⟩]
            ⟨0, [⟨0, 0, 55, false⟩], true⟩ 2 = some t' ∧
          OUTER_TRACK ≤ t'.position ∧ t'.position - OUTER_TRACK + 2 = HOME_STRETCH - 1) :=
  ⟨by decide, by decide, by decide,
    c2_select_finishing [⟨0, [⟨0, 0, 55, false⟩], true⟩] ⟨0, [⟨0, 0, 55, false⟩], true⟩ 2
      ⟨0, 0, 55, false⟩ (by decide) (by decide) (by decide)⟩

/-! ## C1 -/

/-- C1 counterexample: a two-player game at cursor 0 where player 0 (not
finished) rolls a 6, has legal moves (a yard token can come out on a 6), and
passes (`select_token_for_move` returned no token): the cursor advances to
`(0 + 1) % 2 = 1` although the roll was a 6 — refuting "the cursor does not
advance ... regardless of ... whether the player passed". -/
theorem c1_counterexample :
    any_moves_available
        ⟨0, [⟨0, 0, -1, false⟩, ⟨0, 1, -1, false⟩, ⟨0, 2, -1, false⟩, ⟨0, 3, -1, false⟩], false⟩
        6 = true ∧
      (⟨0, [⟨0, 0, -1, false⟩, ⟨0, 1, -1, false⟩, ⟨0, 2, -1, false⟩, ⟨0, 3, -1, false⟩],
        false⟩ : Player).all_finished = false ∧
      (play_step
          ⟨[⟨0, [⟨0, 0, -1, false⟩, ⟨0, 1, -1, false⟩, ⟨0, 2, -1, false⟩, ⟨0, 3, -1, false⟩], false⟩,
            ⟨1, [⟨1, 0, -1, false⟩, ⟨1, 1, -1, false⟩, ⟨1, 2, -1, false⟩, ⟨1, 3, -1, false⟩], false⟩],
           2, 0, []⟩ 6 none).turn = 1 := by
  decide

/-- C1 amended: in a turn of `Game.play` taken by an unfinished player, a roll
other than 6 always advances the cursor to `(cursor + 1) % rosterSize`; a roll
of exactly 6 leaves the cursor unchanged when no move was available or when a
chosen move was applied, but when moves were available and the player passed,
the cursor advances even on a 6. -/
theorem c1_turn_cursor (gs : GameState) (player : Player) (roll : Int)
    (choice : Option Token)
    (hget : gs.players.get? gs.turn = some player)
    (hnf : player.all_finished = false) :
    (roll ≠ 6 → (play_step gs roll choice).turn = (gs.turn + 1) % gs.num_players) ∧
      (roll = 6 → any_moves_available player roll = false →
        (play_step gs roll choice).turn = gs.turn) ∧
      (roll = 6 → any_moves_available player roll = true → ∀ tok, choice = some tok →
        (play_step gs roll choice).turn = gs.turn) ∧
      (roll = 6 → any_moves_available player roll = true → choice = none →
        (play_step gs roll choice).turn = (gs.turn + 1) % gs.num_players) := by
  refine ⟨?_, ?_, ?_, ?_⟩
  · intro h6
    unfold play_step
    rw [hget]
    cases hmv : any_moves_available player roll <;> cases choice <;> simp_all
  · intro h6 hmov
    subst h6
    unfold play_step
    rw [hget]
    cases choice <;> simp_all
  · intro h6 hmov tok htok
    subst htok
    subst h6
    unfold play_step
    rw [hget]
    simp_all
  · intro h6 hmov hch
    subst hch
    subst h6
    unfold play_step
    rw [hget]
    simp_all

/-- Witness for the amended C1: the two-player state with all tokens in yard,
cursor 0, roll 5, pass. -/
theorem c1_turn_cursor_witness :
    (⟨[⟨0, [⟨0, 0, -1, false⟩, ⟨0, 1, -1, false⟩, ⟨0, 2, -1, false⟩, ⟨0, 3, -1, false⟩], false⟩,
       ⟨1, [⟨1, 0, -1, false⟩, ⟨1, 1, -1, false⟩, ⟨1, 2, -1, false⟩, ⟨1, 3, -1, false⟩], false⟩],
      2, 0, []⟩ : GameState).players.get? 0
        = some ⟨0, [⟨0, 0, -1, false⟩, ⟨0, 1, -1, false⟩, ⟨0, 2, -1, false⟩, ⟨0, 3, -1, false⟩],
            false⟩ ∧
      (⟨0, [⟨0, 0, -1, false⟩, ⟨0, 1, -1, false⟩, ⟨0, 2, -1, false⟩, ⟨0, 3, -1, false⟩],
        false⟩ : Player).all_finished = false ∧
      (((5:Int) ≠ 6 →
        (play_step
          ⟨[⟨0, [⟨0, 0, -1, false⟩, ⟨0, 1, -1, false⟩, ⟨0, 2, -1, false⟩, ⟨0, 3, -1, false⟩], false⟩,
            ⟨1, [⟨1, 0, -1, false⟩, ⟨1, 1, -1, false⟩, ⟨1, 2, -1, false⟩, ⟨1, 3, -1, false⟩], false⟩],
           2, 0, []⟩ 5 none).turn = 1) ∧
      ((5:Int) = 6 →
        any_moves_available
          ⟨0, [⟨0, 0, -1, false⟩, ⟨0, 1, -1, false⟩, ⟨0, 2, -1, false⟩, ⟨0, 3, -1, false⟩], false⟩ 5
          = false →
        (play_step
          ⟨[⟨0, [⟨0, 0, -1, false⟩, ⟨0, 1, -1, false⟩, ⟨0, 2, -1, false⟩, ⟨0, 3, -1, false⟩], false⟩,
            ⟨1, [⟨1, 0, -1, false⟩, ⟨1, 1, -1, false⟩, ⟨1, 2, -1, false⟩, ⟨1, 3, -1, false⟩], false⟩],
           2, 0, []⟩ 5 none).turn = 0) ∧
      ((5:Int) = 6 →
        any_moves_available
          ⟨0, [⟨0, 0, -1, false⟩, ⟨0, 1, -1, false⟩, ⟨0, 2, -1, false⟩, ⟨0, 3, -1, false⟩], false⟩ 5
          = true →
        ∀ tok : Token, (none : Option Token) = some tok →
        (play_step
          ⟨[⟨0, [⟨0, 0, -1, false⟩, ⟨0, 1, -1, false⟩, ⟨0, 2, -1, false⟩, ⟨0, 3, -1, false⟩], false⟩,
            ⟨1, [⟨1, 0, -1, false⟩, ⟨1, 1, -1, false⟩, ⟨1, 2, -1, false⟩, ⟨1, 3, -1, false⟩], false⟩],
           2, 0, []⟩ 5 none).turn = 0) ∧
      ((5:Int) = 6 →
        any_moves_available
          ⟨0, [⟨0, 0, -1, false⟩, ⟨0, 1, -1, false⟩, ⟨0, 2, -1, false⟩, ⟨0, 3, -1, false⟩], false⟩ 5
          = true →
        (none : Option Token) = none →
        (play_step
          ⟨[⟨0, [⟨0, 0, -1, false⟩, ⟨0, 1, -1, false⟩, ⟨0, 2, -1, false⟩, ⟨0, 3, -1, false⟩], false⟩,
            ⟨1, [⟨1, 0, -1, false⟩, ⟨1, 1, -1, false⟩, ⟨1, 2, -1, false⟩, ⟨1, 3, -1, false⟩], false⟩],
           2, 0, []⟩ 5 none).turn = 1)) :=
  ⟨by decide, by decide,
    c1_turn_cursor
      ⟨[⟨0, [⟨0, 0, -1, false⟩, ⟨0, 1, -1, false⟩, ⟨0, 2, -1, false⟩, ⟨0, 3, -1, false⟩], false⟩,
        ⟨1, [⟨1, 0, -1, false⟩, ⟨1, 1, -1, false⟩, ⟨1, 2, -1, false⟩, ⟨1, 3, -1, false⟩], false⟩],
       2, 0, []⟩
      ⟨0, [⟨0, 0, -1, false⟩, ⟨0, 1, -1, false⟩, ⟨0, 2, -1, false⟩, ⟨0, 3, -1, false⟩], false⟩
      5 none (by decide) (by decide)⟩

/-! ## C8 infrastructure -/

lemma map_idx_map (ps : List Player) (f : Player → Player)
    (hf : ∀ pl, (f pl).idx = pl.idx) :
    (ps.map f).map Player.idx = ps.map Player.idx := by
  induction ps with
  | nil => rfl
  | cons a as ih => simp [hf, ih]

lemma handle_capture_map_idx (m : Nat) (pos : Int) (ps : List Player) :
    (handle_capture m pos ps).map Player.idx = ps.map Player.idx := by
  unfold handle_capture
  split_ifs <;>
    first
      | rfl
      | (apply map_idx_map
         intro pl
         split_ifs <;> rfl)

lemma set_token_map_idx (ps : List Player) (p : Nat) (t : Token) :
    (set_token ps p t).map Player.idx = ps.map Player.idx := by
  apply map_idx_map
  intro pl
  split_ifs <;> rfl

lemma move_token_map_idx (ps : List Player) (p : Nat) (tok : Token) (roll : Int) :
    (move_token ps p tok roll).map Player.idx = ps.map Player.idx := by
  simp only [move_token]
  split_ifs <;>
    first
      | rfl
      | rw [set_token_map_idx]
      | rw [handle_capture_map_idx, set_token_map_idx]

lemma play_step_shape (gs : GameState) (r : Int) (c : Option Token) (h : gs_valid gs) :
    ((play_step gs r c).winner_order = gs.winner_order ∨
      ∃ x, x < gs.num_players ∧ x ∉ gs.winner_order ∧
        (play_step gs r c).winner_order = gs.winner_order ++ [x]) ∧
      (play_step gs r c).players.map Player.idx = gs.players.map Player.idx ∧
      (play_step gs r c).num_players = gs.num_players ∧
      ((play_step gs r c).turn = gs.turn ∨
        (play_step gs r c).turn = (gs.turn + 1) % gs.num_players) := by
  obtain ⟨hmap, hnodup, hmem, hturn, hnum⟩ := h
  cases hget : gs.players.get? gs.turn with
  | none =>
    unfold play_step
    rw [hget]
    exact ⟨Or.inl rfl, rfl, rfl, Or.inl rfl⟩
  | some player =>
    have hpl : player ∈ gs.players := List.get?_mem hget
    have hplidx : player.idx < gs.num_players := by
      have hm2 : player.idx ∈ gs.players.map Player.idx := List.mem_map_of_mem _ hpl
      rw [hmap] at hm2
      exact List.mem_range.mp hm2
    unfold play_step
    rw [hget]
    cases c with
    | none =>
      dsimp only
      split_ifs with h1 h2 h3
      · exact ⟨Or.inl rfl, rfl, rfl, Or.inr rfl⟩
      · exact ⟨Or.inr ⟨player.idx, hplidx, h2, rfl⟩, rfl, rfl, Or.inr rfl⟩
      · exact ⟨Or.inl rfl, rfl, rfl, Or.inl rfl⟩
      · exact ⟨Or.inl rfl, rfl, rfl, Or.inr rfl⟩
      · exact ⟨Or.inl rfl, rfl, rfl, Or.inr rfl⟩
    | some tok =>
      dsimp only
      have hmap' : (move_token gs.players player.idx tok r).map Player.idx
          = gs.players.map Player.idx := move_token_map_idx _ _ _ _
      have hidx' : (((move_token gs.players player.idx tok r).get? gs.turn).getD player).idx
          < gs.num_players := by
        cases hq : (move_token gs.players player.idx tok r).get? gs.turn with
        | none => exact hplidx
        | some q =>
          have hq2 : q.idx ∈ (move_token gs.players player.idx tok r).map Player.idx :=
            List.mem_map_of_mem _ (List.get?_mem hq)
          rw [hmap', hmap] at hq2
          simp only [Option.getD_some]
          exact List.mem_range.mp hq2
      by_cases h1 : player.all_finished = true
      · rw [if_pos h1]
        by_cases h2 : player.idx ∈ gs.winner_order
        · rw [if_pos h2]
          exact ⟨Or.inl rfl, rfl, rfl, Or.inr rfl⟩
        · rw [if_neg h2]
          exact ⟨Or.inr ⟨player.idx, hplidx, h2, rfl⟩, rfl, rfl, Or.inr rfl⟩
      · rw [if_neg h1]
        by_cases h2 : (!any_moves_available player r) = true
        · rw [if_pos h2]
          by_cases h3 : r = 6
          · rw [if_pos h3]
            exact ⟨Or.inl rfl, rfl, rfl, Or.inl rfl⟩
          · rw [if_neg h3]
            exact ⟨Or.inl rfl, rfl, rfl, Or.inr rfl⟩
        · rw [if_neg h2]
          by_cases h4 : (((move_token gs.players player.idx tok r).get? gs.turn).getD
              player).all_finished = true ∧
              (((move_token gs.players player.idx tok r).get? gs.turn).getD player).idx
                ∉ gs.winner_order
          · rw [if_pos h4]
            by_cases h3 : r = 6
            · rw [if_pos h3]
              exact ⟨Or.inr ⟨_, hidx', h4.2, rfl⟩, hmap', rfl, Or.inl rfl⟩
            · rw [if_neg h3]
              exact ⟨Or.inr ⟨_, hidx', h4.2, rfl⟩, hmap', rfl, Or.inr rfl⟩
          · rw [if_neg h4]
            by_cases h3 : r = 6
            · rw [if_pos h3]
              exact ⟨Or.inl rfl, hmap', rfl, Or.inl rfl⟩
            · rw [if_neg h3]
              exact ⟨Or.inl rfl, hmap', rfl, Or.inr rfl⟩

lemma play_step_valid (gs : GameState) (r : Int) (c : Option Token) (h : gs_valid gs) :
    gs_valid (play_step gs r c) ∧
      gs.winner_order <+: (play_step gs r c).winner_order ∧
      (play_step gs r c).winner_order.length ≤ gs.winner_order.length + 1 ∧
      (play_step gs r c).num_players = gs.num_players := by
  obtain ⟨hwo, hmap', hnum', hturn'⟩ := play_step_shape gs r c h
  obtain ⟨hmap, hnodup, hmem, hturn, hnum⟩ := h
  have hturnlt : (play_step gs r c).turn < (play_step gs r c).num_players := by
    rw [hnum']
    rcases hturn' with h | h
    · rw [h]; exact hturn
    · rw [h]; exact Nat.mod_lt _ (by omega)
  rcases hwo with hwo | ⟨x, hx1, hx2, hwo⟩
  · refine ⟨⟨by rw [hmap', hnum']; exact hmap, by rw [hwo]; exact hnodup,
      by rw [hwo, hnum']; exact hmem, hturnlt, by rw [hnum']; exact hnum⟩,
      by rw [hwo], by rw [hwo]; omega, hnum'⟩
  · refine ⟨⟨by rw [hmap', hnum']; exact hmap, ?_, ?_, hturnlt, by rw [hnum']; exact hnum⟩,
      by rw [hwo]; exact List.prefix_append _ _, by rw [hwo]; simp, hnum'⟩
    · rw [hwo]
      simp [List.nodup_append, hnodup, hx2]
    · rw [hwo, hnum']
      intro i hi
      rcases List.mem_append.mp hi with hi | hi
      · exact hmem i hi
      · simp at hi
        omega

lemma play_loop_valid (inputs : List (Int × Option Token)) :
    ∀ gs : GameState, gs_valid gs →
      gs.winner_order.length ≤ gs.num_players - 1 →
      gs_valid (play_loop gs inputs) ∧
        (play_loop gs inputs).winner_order.length ≤ gs.num_players - 1 ∧
        (play_loop gs inputs).num_players = gs.num_players ∧
        gs.winner_order <+: (play_loop gs inputs).winner_order := by
  induction inputs with
  | nil =>
    intro gs h hlen
    exact ⟨h, hlen, rfl, List.prefix_rfl⟩
  | cons rc rest ih =>
    intro gs h hlen
    obtain ⟨r, c⟩ := rc
    unfold play_loop
    split_ifs with hguard
    · obtain ⟨hv, hpre, hlen1, hnum1⟩ := play_step_valid gs r c h
      obtain ⟨hv', hlen', hnum', hpre'⟩ := ih (play_step gs r c) hv
        (by rw [hnum1]; omega)
      exact ⟨hv', by rw [← hnum1]; omega, by rw [hnum', hnum1], hpre.trans hpre'⟩
    · exact ⟨h, hlen, rfl, List.prefix_rfl⟩

lemma finish_game_perm (gs : GameState) (h : gs_valid gs) :
    List.Perm (finish_game gs).winner_order (List.range gs.num_players) := by
  obtain ⟨hmap, hnodup, hmem, hturn, hnum⟩ := h
  unfold finish_game
  dsimp only
  rw [hmap]
  have hfsub : ∀ i ∈ (List.range gs.num_players).filter
      (fun i => decide (i ∉ gs.winner_order)), i ∉ gs.winner_order := by
    intro i hi
    have := List.of_mem_filter hi
    simpa using this
  rw [List.perm_ext_iff_of_nodup]
  · intro a
    constructor
    · intro ha
      rcases List.mem_append.mp ha with ha | ha
      · exact List.mem_range.mpr (hmem a ha)
      · exact List.mem_of_mem_filter ha
    · intro ha
      by_cases haw : a ∈ gs.winner_order
      · exact List.mem_append.mpr (Or.inl haw)
      · refine List.mem_append.mpr (Or.inr ?_)
        exact List.mem_filter.mpr ⟨ha, by simpa using haw⟩
  · rw [List.nodup_append]
    refine ⟨hnodup, (List.nodup_range _).filter _, ?_⟩
    intro a ha haf
    exact hfsub a haf ha
  · exact List.nodup_range _

/-- C8: the ranking list `winner_order` of `Game.play` is append-only and
duplicate-free, its length grows by at most one per loop iteration and stays
below the roster size, the turn loop iterates exactly while the length is
below `roster size - 1`, and after the final append of the remaining players
the ranking is a permutation of the full roster (so when the loop exits at
length `roster size - 1`, exactly the sole unranked player is appended). -/
theorem c8_ranking_invariants (gs : GameState) (r : Int) (c : Option Token)
    (rest inputs : List (Int × Option Token))
    (h : gs_valid gs) (hlen : gs.winner_order.length ≤ gs.num_players - 1) :
    (gs.winner_order.length < gs.num_players - 1 →
      gs.winner_order <+: (play_step gs r c).winner_order ∧
        (play_step gs r c).winner_order.Nodup ∧
        (play_step gs r c).winner_order.length ≤ gs.winner_order.length + 1 ∧
        (play_step gs r c).winner_order.length ≤ gs.num_players) ∧
      (gs.winner_order.length < gs.num_players - 1 →
        play_loop gs ((r, c) :: rest) = play_loop (play_step gs r c) rest) ∧
      (gs.num_players - 1 ≤ gs.winner_order.length →
        play_loop gs ((r, c) :: rest) = gs) ∧
      (play_loop gs inputs).winner_order.length ≤ gs.num_players - 1 ∧
      gs.winner_order <+: (play_loop gs inputs).winner_order ∧
      List.Perm (play gs inputs).winner_order (List.range gs.num_players) ∧
      ((play_loop gs inputs).winner_order.length = gs.num_players - 1 →
        (play gs inputs).winner_order.length = gs.num_players - 1 + 1) := by
  obtain ⟨hv, hpre, hlen1, hnum1⟩ := play_step_valid gs r c h
  obtain ⟨hv', hlen', hnum', hpre'⟩ := play_loop_valid inputs gs h hlen
  have hperm : List.Perm (play gs inputs).winner_order (List.range gs.num_players) := by
    have hp := finish_game_perm (play_loop gs inputs) hv'
    rw [hnum'] at hp
    exact hp
  have hnum2 : 2 ≤ gs.num_players := h.2.2.2.2
  refine ⟨?_, ?_, ?_, hlen', hpre', hperm, ?_⟩
  · intro hg
    exact ⟨hpre, hv.2.1, hlen1, by omega⟩
  · intro hg
    simp only [play_loop]
    rw [if_pos hg]
  · intro hg
    simp only [play_loop]
    rw [if_neg (by omega)]
  · intro hg
    have hl := hperm.length_eq
    rw [List.length_range] at hl
    omega

/-- Witness for C8 at the initial two-player state, with one loop input. -/
theorem c8_ranking_invariants_witness :
    gs_valid
        ⟨[⟨0, [⟨0, 0, -1, false⟩, ⟨0, 1, -1, false⟩, ⟨0, 2, -1, false⟩, ⟨0, 3, -1, false⟩], false⟩,
          ⟨1, [⟨1, 0, -1, false⟩, ⟨1, 1, -1, false⟩, ⟨1, 2, -1, false⟩, ⟨1, 3, -1, false⟩], false⟩],
         2, 0, []⟩ ∧
      (⟨[⟨0, [⟨0, 0, -1, false⟩, ⟨0, 1, -1, false⟩, ⟨0, 2, -1, false⟩, ⟨0, 3, -1, false⟩], false⟩,
         ⟨1, [⟨1, 0, -1, false⟩, ⟨1, 1, -1, false⟩, ⟨1, 2, -1, false⟩, ⟨1, 3, -1, false⟩], false⟩],
        2, 0, []⟩ : GameState).winner_order.length
        ≤ (⟨[⟨0, [⟨0, 0, -1, false⟩, ⟨0, 1, -1, false⟩, ⟨0, 2, -1, false⟩, ⟨0, 3, -1, false⟩], false⟩,
             ⟨1, [⟨1, 0, -1, false⟩, ⟨1, 1, -1, false⟩, ⟨1, 2, -1, false⟩, ⟨1, 3, -1, false⟩], false⟩],
            2, 0, []⟩ : GameState).num_players - 1 ∧
      List.Perm
        (play
          ⟨[⟨0, [⟨0, 0, -1, false⟩, ⟨0, 1, -1, false⟩, ⟨0, 2, -1, false⟩, ⟨0, 3, -1, false⟩], false⟩,
            ⟨1, [⟨1, 0, -1, false⟩, ⟨1, 1, -1, false⟩, ⟨1, 2, -1, false⟩, ⟨1, 3, -1, false⟩], false⟩],
           2, 0, []⟩ [(6, none)]).winner_order
        (List.range 2) :=
  ⟨by decide, by decide,
    (c8_ranking_invariants
      ⟨[⟨0, [⟨0, 0, -1, false⟩, ⟨0, 1, -1, false⟩, ⟨0, 2, -1, false⟩, ⟨0, 3, -1, false⟩], false⟩,
        ⟨1, [⟨1, 0, -1, false⟩, ⟨1, 1, -1, false⟩, ⟨1, 2, -1, false⟩, ⟨1, 3, -1, false⟩], false⟩],
       2, 0, []⟩ 5 none [] [(6, none)] (by decide) (by decide)).2.2.2.2.2.1⟩
